import Mathlib

/-!
# Verification of the calendar-card event aggregation & refresh engine

Shallow embedding of `src/index.js` of the `calendar-card` repository, together
with spec-modelled definitions for the event tools (`groupEventsByDay`,
`getAllEvents`, novelty detection) whose source file (`src/event.tools.js`) is
not part of the sources; those are modelled from the specification and each
carries a doc comment saying so.

Times are modelled as minutes since an arbitrary epoch (`Nat`); a calendar day
is `t / minutesPerDay`.  JavaScript numbers that may be `NaN` (the
`eventsLimit` option, checked with `isNaN`) are modelled as `Option Int` with
`none` for a non-numeric value.  Absent or empty (falsy) link strings are
modelled as `none : Option String`.
-/

namespace CalendarCard

/-- A configured calendar source, as it appears in the `entities` list of the
configuration: either a bare string or an object with an `entity` field
(`src/index.js` line 58 reads `entity.entity || entity`). -/
inductive Entity where
  | str (s : String)
  | obj (entity : String)
deriving DecidableEq, Repr

/-- The entity name used for configuration-change comparison:
`entity.entity || entity` (`src/index.js` line 58). -/
def entityName : Entity → String
  | .str s => s
  | .obj e => e

/-- The merged configuration (defaults already folded in, as done by
`setConfig` line 47).  `eventsLimit` is `none` when the configured value is
non-numeric (JavaScript `isNaN`).  The boolean flags and `title` are the
cosmetic / display options referenced by the claims. -/
structure Config where
  entities : List Entity
  eventsLimit : Option Int
  numberOfDays : Nat
  showPastEvents : Bool
  highlightToday : Bool
  disableLinks : Bool
  useSourceUrl : Bool
  progressBar : Bool
  title : String
deriving DecidableEq, Repr

/-- The widget state touched by `setConfig`: the stored configuration
(`this.config`, `none` before the first call) and the refresh flag
(`this.cardNeedsUpdating`, initially falsy). -/
structure CardState where
  config : Option Config
  cardNeedsUpdating : Bool
deriving DecidableEq, Repr

/-- The `eventsLimit` validation predicate of `src/index.js` line 53:
`isNaN(config.eventsLimit) || config.eventsLimit < 0`. -/
def eventsLimitInvalid : Option Int → Bool
  | none => true
  | some k => k < 0

/-- The entity names of the new configuration compared against the stored
ones (`src/index.js` lines 58-59). -/
def configEntityNames (c : Config) : List String :=
  c.entities.map entityName

/-- `setConfig` of `src/index.js` lines 46-70, with the defaults merge already
applied to the argument (the claims quantify over the merged configuration).
Returns the thrown error (if any) together with the state after the call:
a `throw` leaves the state exactly as it was at that point of the method. -/
def setConfig (config : Config) (st : CardState) : Except String Unit × CardState :=
  if config.entities.isEmpty then
    (.error "You need to define at least one calendar entity via entities", st)
  else if eventsLimitInvalid config.eventsLimit then
    (.error "The eventsLimit option needs to be a positive number", st)
  else
    let newNames := configEntityNames config
    let changedFetchFields : Bool :=
      match st.config with
      | none => true
      | some old =>
          decide (newNames ≠ configEntityNames old) ||
          decide (config.numberOfDays ≠ old.numberOfDays)
    let changedAnything : Bool :=
      match st.config with
      | none => true
      | some old => decide (config ≠ old)
    let needs := st.cardNeedsUpdating || changedFetchFields || changedAnything
    (.ok (), { config := some config, cardNeedsUpdating := needs })

/-- `true` on the `Except.error` branch. -/
def isErr {ε α : Type} : Except ε α → Bool
  | .error _ => true
  | .ok _ => false

/-- The refresh gate of `updateCard` (`src/index.js` line 109): the fetch cycle
is skipped iff the card does not need updating and fewer than 600 seconds have
elapsed since the last refresh; i.e. it runs iff the flag is set or at least
600 seconds have elapsed. -/
def shouldRefresh (needsUpdating : Bool) (elapsedSeconds : Int) : Bool :=
  needsUpdating || decide (600 ≤ elapsedSeconds)

/-- A normalized event, with the fields the core logic reads: title, start/end
instants (minutes), the all-day marker, the index of the source it came from,
its stable identity key, and the two candidate links (`none` for an absent or
empty link). -/
structure NormalizedEvent where
  title : String
  startTime : Nat
  endTime : Nat
  allDay : Bool
  srcIdx : Nat
  key : String
  sourceUrl : Option String
  htmlLink : Option String
deriving DecidableEq, Repr

/-- The display link of `src/index.js` line 149:
`config.useSourceUrl && event.sourceUrl ? event.sourceUrl : event.htmlLink`. -/
def resolveLink (cfg : Config) (e : NormalizedEvent) : Option String :=
  if cfg.useSourceUrl && e.sourceUrl.isSome then e.sourceUrl else e.htmlLink

/-- Link interaction disabling of `src/index.js` line 151:
`config.disableLinks || !linkUrl`. -/
def disableLink (cfg : Config) (e : NormalizedEvent) : Bool :=
  cfg.disableLinks || (resolveLink cfg e).isNone

/-! ## Day grouping (spec-modelled: `groupEventsByDay` of `src/event.tools.js`
is imported by `src/index.js` line 7 but its source is not in the repository
snapshot; the definitions below follow spec section 4.3 verbatim). -/

/-- Minutes in a day; instants are minutes since an epoch. -/
def minutesPerDay : Nat := 1440

/-- The calendar day of an instant. -/
def dayOf (t : Nat) : Nat := t / minutesPerDay

/-- The calendar day an event is bucketed under: the day of its start. -/
def eventDay (e : NormalizedEvent) : Nat := dayOf e.startTime

/-- Whether an event is all-day or spans multiple days; spec section 4.3 step 2
sorts these to the top of their start day. -/
def isTopOfDay (e : NormalizedEvent) : Bool :=
  e.allDay || decide (dayOf e.startTime < dayOf e.endTime)

/-- The start instant used for sorting: all-day/multi-day events sort as if
starting at the very beginning of their start day (top of the day), other
events by their actual start (spec section 4.3 step 2). -/
def sortStart (e : NormalizedEvent) : Nat :=
  if isTopOfDay e then dayOf e.startTime * minutesPerDay else e.startTime

/-- The full sort key: start time ascending, ties broken by original source
order, then by title (spec section 3, DayBucket). -/
def sortKey (e : NormalizedEvent) : Nat ×ₗ (Nat ×ₗ String) :=
  toLex (sortStart e, toLex (e.srcIdx, e.title))

/-- The ordering on events used by the day grouper. -/
def eventLE (a b : NormalizedEvent) : Prop := sortKey a ≤ sortKey b

instance : DecidableRel eventLE :=
  fun a b => inferInstanceAs (Decidable (sortKey a ≤ sortKey b))

instance : IsTotal NormalizedEvent eventLE :=
  ⟨fun a b => le_total (sortKey a) (sortKey b)⟩

instance : IsTrans NormalizedEvent eventLE :=
  ⟨fun _ _ _ h h' => le_trans h h'⟩

/-- Spec section 4.3 step 1: keep only events starting inside
`[today, today + numberOfDays)`, and drop events already ended today unless
`showPastEvents` is set. -/
def keepEvent (cfg : Config) (now : Nat) (e : NormalizedEvent) : Bool :=
  let today := dayOf now
  decide (today ≤ eventDay e) && decide (eventDay e < today + cfg.numberOfDays) &&
    (cfg.showPastEvents || !(decide (eventDay e = today) && decide (e.endTime < now)))

/-- An ordered day bucket: a calendar day plus its events (spec section 3). -/
structure DayBucket where
  day : Nat
  events : List NormalizedEvent
deriving DecidableEq, Repr

/-- Spec section 4.3 step 3: assign each event of the (sorted) list to the
bucket of its start day, keeping the order of the list. -/
def bucketize : List NormalizedEvent → List DayBucket
  | [] => []
  | e :: rest =>
    match bucketize rest with
    | [] => [⟨eventDay e, [e]⟩]
    | b :: bs =>
      if eventDay e = b.day then ⟨b.day, e :: b.events⟩ :: bs
      else ⟨eventDay e, [e]⟩ :: b :: bs

/-- Total number of events across a bucket sequence. -/
def totalEvents (bs : List DayBucket) : Nat :=
  (bs.map (fun b => b.events.length)).sum

/-- Spec section 4.3 step 4: truncate the total event count across all buckets
to the limit, preserving day order and within-day order; a day left empty by
the truncation is dropped. -/
def truncateBuckets : Nat → List DayBucket → List DayBucket
  | _, [] => []
  | limit, b :: bs =>
    let kept := b.events.take limit
    if kept.isEmpty then []
    else ⟨b.day, kept⟩ :: truncateBuckets (limit - kept.length) bs

/-- The buckets before the `eventsLimit` truncation: filter, sort, group
(spec section 4.3 steps 1-3). -/
def ungroupedBuckets (events : List NormalizedEvent) (cfg : Config) (now : Nat) :
    List DayBucket :=
  bucketize (List.insertionSort eventLE (events.filter (keepEvent cfg now)))

/-- Modelled from the spec: `groupEventsByDay` of `src/event.tools.js`
(missing from the snapshot), per spec section 4.3: filter to the configured
day window, sort, bucket by start day, and truncate the total count to
`eventsLimit`.  A non-numeric `eventsLimit` is read as 0 here; the claims
about grouping assume a validated positive limit. -/
def groupEventsByDay (events : List NormalizedEvent) (cfg : Config) (now : Nat) :
    List DayBucket :=
  truncateBuckets (cfg.eventsLimit.getD 0).toNat (ungroupedBuckets events cfg now)

/-! ## Source fetching (spec-modelled: `getAllEvents` of `src/event.tools.js`
is not in the snapshot; modelled from spec sections 4.1 and 6). -/

/-- The outcome of fetching one source: a list of events on success, a
captured opaque error on failure (spec section 3, FetchOutcome). -/
inductive FetchResult where
  | ok (events : List NormalizedEvent)
  | err (error : String)
deriving DecidableEq, Repr

/-- Whether a fetch succeeded. -/
def FetchResult.isOk : FetchResult → Bool
  | .ok _ => true
  | .err _ => false

/-- Modelled from the spec: `getAllEvents` of `src/event.tools.js` (missing
from the snapshot), per spec section 4.1: given each source paired with its
fetch outcome, concatenate the events of the successful sources (no
deduplication) and collect each failed source with its error; failures are
captured as data, never thrown. -/
def getAllEvents : List (Entity × FetchResult) →
    List NormalizedEvent × List (Entity × String)
  | [] => ([], [])
  | (_, .ok evs) :: rest =>
      let r := getAllEvents rest
      (evs ++ r.1, r.2)
  | (s, .err m) :: rest =>
      let r := getAllEvents rest
      (r.1, (s, m) :: r.2)

/-- The concatenated events of the successful outcomes of a list. -/
def okEvents (l : List (Entity × FetchResult)) : List NormalizedEvent :=
  (l.map (fun p => match p.2 with | .ok evs => evs | .err _ => [])).flatten

/-- Per-source fetches run concurrently and are joined before grouping (spec
section 5): an arrival sequence records, in completion order, the index of the
source and its outcome.  `joinArrivals` reassembles the outcomes in source
order, looking each source's result up by index, so the join is independent of
the completion order. -/
def joinArrivals (sources : List Entity) (arrivals : List (Nat × FetchResult)) :
    List (Entity × FetchResult) :=
  (List.range sources.length).filterMap fun i =>
    (sources[i]?).bind fun s => (arrivals.lookup i).map fun r => (s, r)

/-- One fetch-and-group cycle as a function of the arrival sequence: join the
per-source outcomes, merge the successful events, group by day. -/
def runCycle (sources : List Entity) (arrivals : List (Nat × FetchResult))
    (cfg : Config) (now : Nat) : List DayBucket :=
  groupEventsByDay (getAllEvents (joinArrivals sources arrivals)).1 cfg now

/-! ## Novelty detection (spec-modelled: `sendNotificationForNewEvents` of
`src/event.tools.js` is not in the snapshot; modelled from spec section 4.5). -/

/-- Modelled from the spec: the novelty computation inside
`sendNotificationForNewEvents` of `src/event.tools.js` (missing from the
snapshot), per spec section 4.5: an event is new iff its identity key is
absent from the previous snapshot; with no previous snapshot (`none`, the
first-ever refresh — `this.oldEvents` is `undefined` at `src/index.js` line
118 until then) nothing is reported as new. -/
def detectNew (previous : Option (List NormalizedEvent))
    (current : List NormalizedEvent) : List NormalizedEvent :=
  match previous with
  | none => []
  | some prev => current.filter fun e => !(prev.any fun p => p.key == e.key)

/-! ## Concrete sample data used by witnesses and counterexamples. -/

/-- A well-formed merged configuration used as a concrete test input. -/
def baseConfig : Config :=
  { entities := [.str "calendar.home"], eventsLimit := some 10, numberOfDays := 7,
    showPastEvents := false, highlightToday := false, disableLinks := false,
    useSourceUrl := false, progressBar := false, title := "Calendar" }

/-- A concrete event on day 0, 09:00-10:00. -/
def sampleA : NormalizedEvent :=
  { title := "A", startTime := 540, endTime := 600, allDay := false, srcIdx := 0,
    key := "calendar.home-a", sourceUrl := none, htmlLink := some "https://a" }

/-- A concrete event on day 1, 10:00-11:00. -/
def sampleB : NormalizedEvent :=
  { title := "B", startTime := 2040, endTime := 2100, allDay := false, srcIdx := 1,
    key := "calendar.work-b", sourceUrl := some "https://sb", htmlLink := some "https://b" }

/-! ## Claim theorems -/

/-- Claim C1 (code bug): the validation of `setConfig` (`src/index.js` line 53)
checks `config.eventsLimit < 0`, so the merged configuration with
`eventsLimit = 0` is accepted without an error, although the code's own error
message ("needs to be a positive number") and the spec declare zero invalid.
This theorem exhibits the failing input: a configuration with one entity and
`eventsLimit = 0` on which `setConfig` does not throw. -/
theorem C1_eventsLimit_zero_accepted :
    ({ baseConfig with eventsLimit := some 0 } : Config).entities ≠ [] ∧
    ({ baseConfig with eventsLimit := some 0 } : Config).eventsLimit = some 0 ∧
    isErr (setConfig { baseConfig with eventsLimit := some 0 } ⟨none, false⟩).1 = false := by
  refine ⟨by decide, rfl, rfl⟩

/-- Claim C2 (counterexample): two merged configurations agreeing on the
entity list and `numberOfDays` and differing only in the cosmetic
`highlightToday` flag; applying the second via `setConfig` after the first
nevertheless sets `cardNeedsUpdating` (the flag that triggers the re-fetch at
`src/index.js` line 109), because line 65 compares the whole serialized
configuration. -/
theorem C2_cosmetic_change_marks_update :
    configEntityNames { baseConfig with highlightToday := true } = configEntityNames baseConfig ∧
    ({ baseConfig with highlightToday := true } : Config).numberOfDays = baseConfig.numberOfDays ∧
    (setConfig { baseConfig with highlightToday := true }
      ⟨some baseConfig, false⟩).2.cardNeedsUpdating = true := by
  refine ⟨rfl, rfl, by decide⟩

/-- Claim C2 (amended): `setConfig` marks the card as needing a re-fetch
whenever the new merged configuration differs from the stored one in ANY
field, cosmetic fields included (`src/index.js` lines 64-67 compare the whole
serialized configuration); the flag stays clear only when the configuration is
unchanged (and it was not already set). -/
theorem C2_update_flag_iff_any_change (c : Config) (st : CardState)
    (h1 : c.entities.isEmpty = false) (h2 : eventsLimitInvalid c.eventsLimit = false) :
    (setConfig c st).2.cardNeedsUpdating =
      (st.cardNeedsUpdating ||
        match st.config with
        | none => true
        | some old => decide (c ≠ old)) := by
  unfold setConfig
  simp only [h1, h2, Bool.false_eq_true, if_false]
  cases hc : st.config with
  | none => simp
  | some old =>
      by_cases hco : c = old
      · subst hco
        simp
      · simp [hco]

/-- Claim C2 amended, witness: a cosmetic-only edit of the stored
configuration sets the flag. -/
theorem C2_update_flag_witness :
    (setConfig { baseConfig with highlightToday := true }
      ⟨some baseConfig, false⟩).2.cardNeedsUpdating =
      (false ||
        match (some baseConfig : Option Config) with
        | none => true
        | some old => decide ({ baseConfig with highlightToday := true } ≠ old)) :=
  C2_update_flag_iff_any_change { baseConfig with highlightToday := true }
    ⟨some baseConfig, false⟩ rfl rfl

/-- Claim C3: the refresh gate of `updateCard` (`src/index.js` line 109) runs
a cycle iff the card was marked as needing an update or at least 600 seconds
have elapsed since the last refresh; in particular it skips with an elapsed
time of 0 and a clear flag, runs at 601 seconds regardless of the flag, and
runs at any elapsed time after a `setConfig` whose entity list differs from
the stored one. -/
theorem C3_refresh_gate :
    (∀ (needs : Bool) (d : Int), shouldRefresh needs d = true ↔ (needs = true ∨ 600 ≤ d)) ∧
    shouldRefresh false 0 = false ∧
    (∀ needs : Bool, shouldRefresh needs 601 = true) ∧
    (∀ (c : Config) (st : CardState) (old : Config),
      c.entities.isEmpty = false → eventsLimitInvalid c.eventsLimit = false →
      st.config = some old → configEntityNames c ≠ configEntityNames old →
      ∀ d : Int, shouldRefresh (setConfig c st).2.cardNeedsUpdating d = true) := by
  refine ⟨?_, rfl, ?_, ?_⟩
  · intro needs d
    simp [shouldRefresh]
  · intro needs
    cases needs <;> decide
  · intro c st old h1 h2 hst hnames d
    unfold setConfig
    simp [h1, h2, hst, shouldRefresh, hnames]

/-- Claim C3, witness: concrete instances of the gate behaviour, including a
changed entity list forcing a refresh at elapsed time 0. -/
theorem C3_refresh_gate_witness :
    shouldRefresh (setConfig { baseConfig with entities := [.str "calendar.work"] }
      ⟨some baseConfig, false⟩).2.cardNeedsUpdating 0 = true :=
  C3_refresh_gate.2.2.2 { baseConfig with entities := [.str "calendar.work"] }
    ⟨some baseConfig, false⟩ baseConfig rfl rfl rfl (by decide) 0

/-- Claim C7 (counterexample): an event whose only link is the source-native
`sourceUrl`, under a configuration with `useSourceUrl` and `disableLinks` both
unset: `src/index.js` line 149 resolves the link to the absent `htmlLink`, so
line 151 disables interaction even though a link exists and `disableLinks` is
not set — refuting "disabled exactly when `disableLinks` is set or neither
link exists". -/
theorem C7_disabled_with_existing_source_link :
    disableLink { baseConfig with useSourceUrl := false, disableLinks := false }
        { sampleB with htmlLink := none } = true ∧
    ({ baseConfig with useSourceUrl := false, disableLinks := false } : Config).disableLinks
        = false ∧
    ({ sampleB with htmlLink := none } : NormalizedEvent).sourceUrl.isSome = true := by
  refine ⟨rfl, rfl, rfl⟩

/-- Claim C7 (amended): the display link is `sourceUrl` when `useSourceUrl` is
set and that link exists, otherwise `htmlLink`; interaction is disabled
exactly when `disableLinks` is set or the RESOLVED link is absent — i.e. when
`htmlLink` is absent and (`useSourceUrl` is unset or `sourceUrl` is absent).
The absence of both links only disables the link; it is not an error
(`disableLink` is total). -/
theorem C7_link_resolution (cfg : Config) (e : NormalizedEvent) :
    ((cfg.useSourceUrl = true ∧ e.sourceUrl.isSome = true) → resolveLink cfg e = e.sourceUrl) ∧
    ((cfg.useSourceUrl = false ∨ e.sourceUrl = none) → resolveLink cfg e = e.htmlLink) ∧
    (disableLink cfg e = true ↔
      (cfg.disableLinks = true ∨
        (e.htmlLink = none ∧ (cfg.useSourceUrl = false ∨ e.sourceUrl = none)))) := by
  refine ⟨?_, ?_, ?_⟩
  · rintro ⟨h1, h2⟩
    simp [resolveLink, h1, h2]
  · intro h
    rcases h with h | h
    · simp [resolveLink, h]
    · simp [resolveLink, h]
  · unfold disableLink resolveLink
    cases hd : cfg.disableLinks <;>
      cases hu : cfg.useSourceUrl <;>
        cases hs : e.sourceUrl <;>
          cases hh : e.htmlLink <;> simp

/-- Claim C7 amended, witness: both resolution branches at concrete inputs. -/
theorem C7_link_resolution_witness :
    resolveLink { baseConfig with useSourceUrl := true } sampleB = sampleB.sourceUrl ∧
    resolveLink baseConfig sampleB = sampleB.htmlLink :=
  ⟨(C7_link_resolution { baseConfig with useSourceUrl := true } sampleB).1 ⟨rfl, rfl⟩,
   (C7_link_resolution baseConfig sampleB).2.1 (Or.inl rfl)⟩

/-- Claim C10: `setConfig` is atomic on validation failure: the two `throw`s
(`src/index.js` lines 50 and 54) happen before any assignment, so a
configuration with an empty entity list or an invalid `eventsLimit` leaves the
stored state (configuration and update flag) untouched. -/
theorem C10_setConfig_atomic (c : Config) (st : CardState)
    (h : c.entities.isEmpty = true ∨ eventsLimitInvalid c.eventsLimit = true) :
    isErr (setConfig c st).1 = true ∧ (setConfig c st).2 = st := by
  unfold setConfig
  rcases h with h | h
  · simp [h, isErr]
  · by_cases h2 : c.entities.isEmpty <;> simp [h, h2, isErr]

/-- Claim C10, witness: an empty entity list at a concrete stored state. -/
theorem C10_setConfig_atomic_witness :
    isErr (setConfig { baseConfig with entities := [] } ⟨some baseConfig, false⟩).1 = true ∧
    (setConfig { baseConfig with entities := [] } ⟨some baseConfig, false⟩).2 =
      ⟨some baseConfig, false⟩ :=
  C10_setConfig_atomic { baseConfig with entities := [] } ⟨some baseConfig, false⟩
    (Or.inl rfl)

/-- Claim C6: novelty detection keyed by identity key: with no previous
snapshot nothing is new; a list diffed against itself yields nothing; adding
one event with a fresh key to the snapshot yields exactly that event. -/
theorem C6_detect_new (prev cur : List NormalizedEvent) (e : NormalizedEvent)
    (he : e.key ∉ prev.map NormalizedEvent.key) :
    detectNew none cur = [] ∧
    detectNew (some prev) prev = [] ∧
    detectNew (some prev) (prev ++ [e]) = [e] := by
  have hself : ∀ l : List NormalizedEvent,
      l.filter (fun x => !(l.any fun p => p.key == x.key)) = [] := by
    intro l
    rw [List.filter_eq_nil_iff]
    intro a ha
    simp [List.any_eq_true]
    exact ⟨a, ha, rfl⟩
  have hme : (prev.any fun p => p.key == e.key) = false := by
    rw [List.any_eq_false]
    intro p hp
    simp only [beq_iff_eq]
    intro hk
    exact he (hk ▸ List.mem_map_of_mem NormalizedEvent.key hp)
  refine ⟨rfl, ?_, ?_⟩
  · simpa only [detectNew] using hself prev
  · simp only [detectNew, List.filter_append, hself prev, List.nil_append]
    simp [List.filter, hme]

/-- Claim C6, witness: concrete snapshot gaining one fresh-keyed event. -/
theorem C6_detect_new_witness :
    detectNew none [sampleA] = [] ∧
    detectNew (some [sampleA]) [sampleA] = [] ∧
    detectNew (some [sampleA]) ([sampleA] ++ [sampleB]) = [sampleB] :=
  C6_detect_new [sampleA] [sampleA] sampleB (by decide)

/-- Merging distributes over concatenation of outcome lists. -/
theorem getAllEvents_append (l1 l2 : List (Entity × FetchResult)) :
    getAllEvents (l1 ++ l2) =
      ((getAllEvents l1).1 ++ (getAllEvents l2).1,
       (getAllEvents l1).2 ++ (getAllEvents l2).2) := by
  induction l1 with
  | nil => simp [getAllEvents]
  | cons p rest ih =>
      obtain ⟨s, r⟩ := p
      cases r with
      | ok evs => simp [getAllEvents, ih, List.append_assoc]
      | err m => simp [getAllEvents, ih]

/-- On a list of all-successful outcomes, merging concatenates the events and
reports no failure. -/
theorem getAllEvents_of_ok (l : List (Entity × FetchResult))
    (h : ∀ p ∈ l, p.2.isOk = true) :
    getAllEvents l = (okEvents l, []) := by
  induction l with
  | nil => rfl
  | cons p rest ih =>
      obtain ⟨s, r⟩ := p
      cases r with
      | ok evs =>
          have ih2 := ih fun q hq => h q (List.mem_cons_of_mem _ hq)
          simp [getAllEvents, okEvents] at ih2 ⊢
          exact ⟨congrArg Prod.fst ih2, congrArg Prod.snd ih2⟩
      | err m =>
          have := h (s, .err m) (List.mem_cons_self _ _)
          simp [FetchResult.isOk] at this

/-- Claim C5: per-source failures are isolated: with the outcomes of the
succeeding sources on either side of the single failing source, the merged
event list is exactly the concatenation of the succeeding sources' events (in
source order, not deduplicated), the failed source appears exactly once in the
failure list, and `getAllEvents` is a total function — nothing is thrown
across the fetch-cycle boundary. -/
theorem C5_partial_failure_isolated (pre post : List (Entity × FetchResult))
    (s : Entity) (m : String)
    (hpre : ∀ p ∈ pre, p.2.isOk = true) (hpost : ∀ p ∈ post, p.2.isOk = true)
    (_hN : 1 ≤ pre.length + post.length) :
    getAllEvents (pre ++ (s, .err m) :: post) = (okEvents pre ++ okEvents post, [(s, m)]) := by
  rw [getAllEvents_append, getAllEvents_of_ok pre hpre]
  have hcons : getAllEvents ((s, FetchResult.err m) :: post) =
      (okEvents post, [(s, m)]) := by
    simp [getAllEvents, getAllEvents_of_ok post hpost]
  rw [hcons]
  simp

/-- Flattening the buckets recovers the grouped list. -/
theorem bucketize_flatten (l : List NormalizedEvent) :
    ((bucketize l).map (fun b => b.events)).flatten = l := by
  induction l with
  | nil => rfl
  | cons e rest ih =>
      simp only [bucketize]
      cases h : bucketize rest with
      | nil =>
          rw [h] at ih
          simp at ih
          simp [ih]
      | cons b bs =>
          rw [h] at ih
          by_cases hd : eventDay e = b.day
          · simp only [List.map_cons, List.flatten_cons] at ih
            simp [hd, ← ih]
          · simp only [List.map_cons, List.flatten_cons] at ih
            simp [hd, ← ih]

/-- Every bucket produced by `bucketize` is non-empty. -/
theorem bucketize_nonempty (l : List NormalizedEvent) :
    ∀ b ∈ bucketize l, b.events ≠ [] := by
  induction l with
  | nil => intro b hb; simp [bucketize] at hb
  | cons e rest ih =>
      intro b hb
      simp only [bucketize] at hb
      cases h : bucketize rest with
      | nil =>
          rw [h] at hb
          simp at hb
          subst hb
          simp
      | cons b0 bs =>
          rw [h] at hb
          by_cases hd : eventDay e = b0.day
          · simp only [hd, if_true] at hb
            rcases List.mem_cons.mp hb with hb | hb
            · subst hb; simp
            · exact ih b (h ▸ List.mem_cons_of_mem _ hb)
          · simp only [hd, if_false] at hb
            rcases List.mem_cons.mp hb with hb | hb
            · subst hb; simp
            · exact ih b (h ▸ hb)

/-- Every event of a bucket produced by `bucketize` belongs to that bucket's
day. -/
theorem bucketize_day_eq (l : List NormalizedEvent) :
    ∀ b ∈ bucketize l, ∀ e ∈ b.events, eventDay e = b.day := by
  induction l with
  | nil => intro b hb; simp [bucketize] at hb
  | cons e rest ih =>
      intro b hb x hx
      simp only [bucketize] at hb
      cases h : bucketize rest with
      | nil =>
          rw [h] at hb
          simp at hb
          subst hb
          simp at hx
          subst hx
          rfl
      | cons b0 bs =>
          rw [h] at hb
          by_cases hd : eventDay e = b0.day
          · simp only [hd, if_true] at hb
            rcases List.mem_cons.mp hb with hb | hb
            · subst hb
              simp only at hx
              rcases List.mem_cons.mp hx with hx | hx
              · subst hx; exact hd
              · exact ih b0 (h ▸ List.mem_cons_self _ _) x hx
            · exact ih b (h ▸ List.mem_cons_of_mem _ hb) x hx
          · simp only [hd, if_false] at hb
            rcases List.mem_cons.mp hb with hb | hb
            · subst hb
              simp at hx
              subst hx
              rfl
            · exact ih b (h ▸ hb) x hx

/-- `bucketize` of a non-empty list starts with a bucket for the head's day. -/
theorem bucketize_cons_head (e : NormalizedEvent) (rest : List NormalizedEvent) :
    ∃ b bs, bucketize (e :: rest) = b :: bs ∧ b.day = eventDay e := by
  simp only [bucketize]
  cases h : bucketize rest with
  | nil => exact ⟨⟨eventDay e, [e]⟩, [], rfl, rfl⟩
  | cons b0 bs =>
      by_cases hd : eventDay e = b0.day
      · exact ⟨⟨b0.day, e :: b0.events⟩, bs, by simp [hd], hd.symm⟩
      · exact ⟨⟨eventDay e, [e]⟩, b0 :: bs, by simp [hd], rfl⟩

/-- The day of the sorting start equals the event's bucket day. -/
theorem dayOf_sortStart (e : NormalizedEvent) : dayOf (sortStart e) = eventDay e := by
  unfold sortStart
  by_cases h : isTopOfDay e = true
  · simp only [h, if_true]
    unfold dayOf eventDay
    exact Nat.mul_div_cancel _ (by decide)
  · simp only [h, if_false]
    rfl

/-- The event ordering is monotone in the bucket day. -/
theorem eventDay_mono {a b : NormalizedEvent} (h : eventLE a b) :
    eventDay a ≤ eventDay b := by
  have hs : sortStart a ≤ sortStart b := by
    unfold eventLE sortKey at h
    rcases (Prod.Lex.le_iff _ _).mp h with h | ⟨h, _⟩
    · exact le_of_lt h
    · exact le_of_eq h
  calc eventDay a = dayOf (sortStart a) := (dayOf_sortStart a).symm
    _ ≤ dayOf (sortStart b) := Nat.div_le_div_right hs
    _ = eventDay b := dayOf_sortStart b

/-- An event of a bucket of `bucketize l` is an element of `l`. -/
theorem mem_of_mem_bucketize {l : List NormalizedEvent} {b : DayBucket}
    (hb : b ∈ bucketize l) {x : NormalizedEvent} (hx : x ∈ b.events) : x ∈ l := by
  rw [← bucketize_flatten l]
  rw [List.mem_flatten]
  exact ⟨b.events, List.mem_map_of_mem _ hb, hx⟩

/-- On a day-sorted input, `bucketize` produces buckets in strictly ascending
day order. -/
theorem bucketize_chain (l : List NormalizedEvent) (hs : l.Sorted eventLE) :
    List.Chain' (fun x y => x.day < y.day) (bucketize l) := by
  induction l with
  | nil => simp [bucketize]
  | cons e rest ih =>
      have hall : ∀ x ∈ rest, eventLE e x := (List.sorted_cons.mp hs).1
      have hrest : rest.Sorted eventLE := (List.sorted_cons.mp hs).2
      have ihc := ih hrest
      simp only [bucketize]
      cases h : bucketize rest with
      | nil => simp
      | cons b bs =>
          rw [h] at ihc
          have hbday : eventDay e ≤ b.day := by
            cases rest with
            | nil => simp [bucketize] at h
            | cons f rest2 =>
                obtain ⟨b', bs', hb', hd'⟩ := bucketize_cons_head f rest2
                rw [hb'] at h
                injection h with h1 h2
                rw [← h1, hd']
                exact eventDay_mono (hall f (List.mem_cons_self _ _))
          by_cases hd : eventDay e = b.day
          · simp only [hd, if_true]
            rcases List.chain'_cons'.mp ihc with ⟨hhead, htail⟩
            exact List.chain'_cons'.mpr ⟨hhead, htail⟩
          · simp only [hd, if_false]
            exact List.chain'_cons.mpr ⟨lt_of_le_of_ne hbday hd, ihc⟩

/-- On a sorted input, every bucket of `bucketize` is internally sorted. -/
theorem bucketize_sorted (l : List NormalizedEvent) (hs : l.Sorted eventLE) :
    ∀ b ∈ bucketize l, b.events.Sorted eventLE := by
  induction l with
  | nil => intro b hb; simp [bucketize] at hb
  | cons e rest ih =>
      have hall : ∀ x ∈ rest, eventLE e x := (List.sorted_cons.mp hs).1
      have hrest : rest.Sorted eventLE := (List.sorted_cons.mp hs).2
      intro b hb
      simp only [bucketize] at hb
      cases h : bucketize rest with
      | nil =>
          rw [h] at hb
          simp at hb
          subst hb
          simp
      | cons b0 bs =>
          rw [h] at hb
          by_cases hd : eventDay e = b0.day
          · simp only [hd, if_true] at hb
            rcases List.mem_cons.mp hb with hb | hb
            · subst hb
              refine List.sorted_cons.mpr ⟨?_, ih hrest b0 (h ▸ List.mem_cons_self _ _)⟩
              intro x hx
              exact hall x (mem_of_mem_bucketize (h ▸ List.mem_cons_self _ _) hx)
            · exact ih hrest b (h ▸ List.mem_cons_of_mem _ hb)
          · simp only [hd, if_false] at hb
            rcases List.mem_cons.mp hb with hb | hb
            · subst hb; simp
            · exact ih hrest b (h ▸ hb)

/-- After truncation, the total event count is bounded by the limit. -/
theorem totalEvents_truncate_le (bs : List DayBucket) :
    ∀ n, totalEvents (truncateBuckets n bs) ≤ n := by
  induction bs with
  | nil => intro n; simp [truncateBuckets, totalEvents]
  | cons b rest ih =>
      intro n
      simp only [truncateBuckets]
      by_cases he : (b.events.take n).isEmpty = true
      · simp [he, totalEvents]
      · rw [if_neg he]
        have hlen : (b.events.take n).length ≤ n := by
          rw [List.length_take]
          exact min_le_left _ _
        have := ih (n - (b.events.take n).length)
        simp only [totalEvents, List.map_cons, List.sum_cons] at this ⊢
        omega

/-- When the limit covers the whole (non-empty-bucket) sequence, truncation is
the identity. -/
theorem truncate_of_total_le (bs : List DayBucket)
    (hne : ∀ b ∈ bs, b.events ≠ []) :
    ∀ n, totalEvents bs ≤ n → truncateBuckets n bs = bs := by
  induction bs with
  | nil => intro n _; rfl
  | cons b rest ih =>
      intro n hn
      simp only [totalEvents, List.map_cons, List.sum_cons] at hn
      have hlen : b.events.length ≤ n := by omega
      have htake : b.events.take n = b.events := List.take_of_length_le hlen
      have hbne : b.events ≠ [] := hne b (List.mem_cons_self _ _)
      simp only [truncateBuckets, htake]
      rw [if_neg (by simpa [List.isEmpty_iff] using hbne)]
      have : truncateBuckets (n - b.events.length) rest = rest := by
        refine ih (fun c hc => hne c (List.mem_cons_of_mem _ hc)) _ ?_
        simp only [totalEvents]
        omega
      rw [this]

/-- The head bucket of a truncated sequence keeps the head day. -/
theorem truncate_head_day {n : Nat} {bs : List DayBucket} {c : DayBucket}
    {cs : List DayBucket} (h : truncateBuckets n bs = c :: cs) :
    ∃ b bs2, bs = b :: bs2 ∧ c.day = b.day := by
  cases bs with
  | nil => simp [truncateBuckets] at h
  | cons b bs2 =>
      refine ⟨b, bs2, rfl, ?_⟩
      simp only [truncateBuckets] at h
      by_cases he : (b.events.take n).isEmpty = true
      · simp [he] at h
      · rw [if_neg (by simp [he])] at h
        injection h with h1 _
        rw [← h1]

/-- Truncation preserves the strictly-ascending day order. -/
theorem truncate_chain (bs : List DayBucket)
    (hc : List.Chain' (fun x y => x.day < y.day) bs) :
    ∀ n, List.Chain' (fun x y => x.day < y.day) (truncateBuckets n bs) := by
  induction bs with
  | nil => intro n; simp [truncateBuckets]
  | cons b rest ih =>
      intro n
      rcases List.chain'_cons'.mp hc with ⟨hhead, htail⟩
      simp only [truncateBuckets]
      by_cases he : (b.events.take n).isEmpty = true
      · simp [he]
      · rw [if_neg (by simp [he])]
        refine List.chain'_cons'.mpr ⟨fun y hy => ?_, ih htail (n - (b.events.take n).length)⟩
        cases hrec : truncateBuckets (n - (b.events.take n).length) rest with
        | nil => rw [hrec] at hy; simp at hy
        | cons c cs =>
            rw [hrec] at hy
            simp at hy
            subst hy
            obtain ⟨b2, bs2, hb2, hd2⟩ := truncate_head_day hrec
            subst hb2
            have := hhead b2 (by simp)
            simpa [hd2] using this

/-- Every bucket of a truncated sequence is a same-day, order-preserving
prefix of a bucket of the input sequence. -/
theorem truncate_mem {n : Nat} {bs : List DayBucket} :
    ∀ c ∈ truncateBuckets n bs,
      ∃ b ∈ bs, c.day = b.day ∧ ∃ k, c.events = b.events.take k := by
  induction bs generalizing n with
  | nil => intro c hc; simp [truncateBuckets] at hc
  | cons b rest ih =>
      intro c hc
      simp only [truncateBuckets] at hc
      by_cases he : ((b.events.take n).isEmpty = true)
      · simp [he] at hc
      · rw [if_neg (by simp [he])] at hc
        rcases List.mem_cons.mp hc with hc | hc
        · subst hc
          exact ⟨b, List.mem_cons_self _ _, rfl, n, rfl⟩
        · obtain ⟨b', hb', hd', k, hk⟩ := ih c hc
          exact ⟨b', List.mem_cons_of_mem _ hb', hd', k, hk⟩

/-- Truncation never outputs an empty bucket. -/
theorem truncate_nonempty {n : Nat} {bs : List DayBucket} :
    ∀ c ∈ truncateBuckets n bs, c.events ≠ [] := by
  induction bs generalizing n with
  | nil => intro c hc; simp [truncateBuckets] at hc
  | cons b rest ih =>
      intro c hc
      simp only [truncateBuckets] at hc
      by_cases he : ((b.events.take n).isEmpty = true)
      · simp [he] at hc
      · rw [if_neg (by simp [he])] at hc
        rcases List.mem_cons.mp hc with hc | hc
        · subst hc
          simpa [List.isEmpty_iff] using he
        · exact ih c hc

/-- Claim C5, witness: two sources, the second failing. -/
theorem C5_partial_failure_witness :
    getAllEvents ([(Entity.str "calendar.home", FetchResult.ok [sampleA])] ++
        (Entity.str "calendar.work", FetchResult.err "network error") :: []) =
      (okEvents [(Entity.str "calendar.home", FetchResult.ok [sampleA])] ++ okEvents [],
       [(Entity.str "calendar.work", "network error")]) :=
  C5_partial_failure_isolated [(Entity.str "calendar.home", FetchResult.ok [sampleA])] []
    (Entity.str "calendar.work") "network error"
    (by intro p hp; simp at hp; subst hp; rfl) (by intro p hp; simp at hp)
    (by decide)

/-- Claim C4: under a validated configuration (at least one entity, numeric
`eventsLimit > 0`), the grouped output never exceeds `eventsLimit` events in
total; when the limit covers all bucketed events no truncation occurs; an
empty merged list yields an empty bucket sequence (not an error); and no
returned bucket is empty (a day emptied by truncation is dropped). -/
theorem C4_events_limit (evts : List NormalizedEvent) (cfg : Config) (now : Nat)
    (k : Int) (_hents : cfg.entities ≠ []) (hlim : cfg.eventsLimit = some k)
    (_hk : 0 < k) :
    totalEvents (groupEventsByDay evts cfg now) ≤ k.toNat ∧
    (totalEvents (ungroupedBuckets evts cfg now) ≤ k.toNat →
      groupEventsByDay evts cfg now = ungroupedBuckets evts cfg now) ∧
    groupEventsByDay [] cfg now = [] ∧
    (∀ b ∈ groupEventsByDay evts cfg now, b.events ≠ []) := by
  unfold groupEventsByDay
  rw [hlim]
  refine ⟨totalEvents_truncate_le _ _, ?_, ?_, fun b hb => truncate_nonempty b hb⟩
  · intro hle
    exact truncate_of_total_le _ (bucketize_nonempty _) _ hle
  · rfl

/-- Claim C4, witness: one event, limit 10. -/
theorem C4_events_limit_witness :
    totalEvents (groupEventsByDay [sampleA] baseConfig 0) ≤ (10 : Int).toNat ∧
    (totalEvents (ungroupedBuckets [sampleA] baseConfig 0) ≤ (10 : Int).toNat →
      groupEventsByDay [sampleA] baseConfig 0 = ungroupedBuckets [sampleA] baseConfig 0) ∧
    groupEventsByDay [] baseConfig 0 = [] ∧
    (∀ b ∈ groupEventsByDay [sampleA] baseConfig 0, b.events ≠ []) :=
  C4_events_limit [sampleA] baseConfig 0 10 (by decide) rfl (by decide)

/-- Claim C8: the grouped output lists its day buckets in strictly ascending
day order; within each bucket the events are sorted by the event ordering
`eventLE` — start time ascending (all-day/multi-day events normalized to the
top of their start day), ties broken by original source order, then by title —
and every event of a bucket belongs to that bucket's day. -/
theorem C8_bucket_order (evts : List NormalizedEvent) (cfg : Config) (now : Nat) :
    List.Chain' (fun x y => x.day < y.day) (groupEventsByDay evts cfg now) ∧
    ∀ b ∈ groupEventsByDay evts cfg now,
      b.events.Sorted eventLE ∧ ∀ e ∈ b.events, eventDay e = b.day := by
  unfold groupEventsByDay ungroupedBuckets
  have hsorted : (List.insertionSort eventLE
      (evts.filter (keepEvent cfg now))).Sorted eventLE :=
    List.sorted_insertionSort eventLE _
  constructor
  · exact truncate_chain _ (bucketize_chain _ hsorted) _
  · intro b hb
    obtain ⟨b', hb', hday, k, hk⟩ := truncate_mem b hb
    constructor
    · rw [hk]
      exact (bucketize_sorted _ hsorted b' hb').sublist (List.take_sublist _ _)
    · intro e he
      rw [hday]
      exact bucketize_day_eq _ b' hb' e ((List.take_sublist k b'.events).mem (hk ▸ he))

/-- Identity-keyed lookup is invariant under permutation of an association
list with distinct keys. -/
theorem lookup_eq_of_perm {β : Type} {l1 l2 : List (Nat × β)} (hp : l1.Perm l2) :
    (l1.map Prod.fst).Nodup → ∀ i, l1.lookup i = l2.lookup i := by
  induction hp with
  | nil => intro _ i; rfl
  | cons a t ih =>
      intro hn i
      simp only [List.map_cons, List.nodup_cons] at hn
      simp only [List.lookup]
      cases h : (i == a.1)
      · exact ih hn.2 i
      · rfl
  | swap x y l =>
      intro hn i
      simp only [List.map_cons, List.nodup_cons, List.mem_cons] at hn
      have hxy : y.1 ≠ x.1 := fun h => hn.1 (Or.inl h)
      simp only [List.lookup]
      cases hx : (i == x.1) <;> cases hy : (i == y.1) <;> try rfl
      · exact absurd (beq_iff_eq.mp hy ▸ beq_iff_eq.mp hx : y.1 = x.1).symm
          (fun h => hxy h.symm)
  | trans h12 h23 ih12 ih23 =>
      intro hn i
      have hn2 := ((h12.map Prod.fst).nodup_iff).mp hn
      exact (ih12 hn i).trans (ih23 hn2 i)

/-- Claim C9: the grouping step is a pure function — applying it twice to the
same normalized list and configuration yields identical bucket sequences —
and a whole fetch-and-group cycle is independent of the order in which the
per-source fetches completed: any permutation of the arrival sequence (one
outcome per source) produces the same bucket sequence. -/
theorem C9_grouping_deterministic (sources : List Entity)
    (a1 a2 : List (Nat × FetchResult)) (cfg : Config) (now : Nat)
    (hperm : a1.Perm a2) (hnodup : (a1.map Prod.fst).Nodup) :
    (∀ evts : List NormalizedEvent,
      groupEventsByDay evts cfg now = groupEventsByDay evts cfg now) ∧
    runCycle sources a1 cfg now = runCycle sources a2 cfg now := by
  refine ⟨fun _ => rfl, ?_⟩
  unfold runCycle
  have hjoin : joinArrivals sources a1 = joinArrivals sources a2 := by
    unfold joinArrivals
    apply List.filterMap_congr
    intro i _
    rw [lookup_eq_of_perm hperm hnodup i]
  rw [hjoin]

/-- Claim C9, witness: two sources whose outcomes arrive in the two possible
orders. -/
theorem C9_grouping_witness :
    runCycle [Entity.str "calendar.home", Entity.str "calendar.work"]
        [(1, FetchResult.err "x"), (0, FetchResult.ok [sampleA])] baseConfig 0 =
      runCycle [Entity.str "calendar.home", Entity.str "calendar.work"]
        [(0, FetchResult.ok [sampleA]), (1, FetchResult.err "x")] baseConfig 0 :=
  (C9_grouping_deterministic [Entity.str "calendar.home", Entity.str "calendar.work"]
    [(1, FetchResult.err "x"), (0, FetchResult.ok [sampleA])]
    [(0, FetchResult.ok [sampleA]), (1, FetchResult.err "x")] baseConfig 0
    (List.Perm.swap _ _ _) (by decide)).2

end CalendarCard
